import Mathlib

/-!
Math.hpp: Vector2, Vector3 and Quaternion

A shallow embedding of the value types of `Math.hpp` / `Math.cpp`.

* The C++ `float` is read as an exact scalar: every definition is written over
  an arbitrary field `K` (instantiated at `ℝ` for the statements that involve
  `<cmath>`, and usable at `ℚ` for evaluation).  Rounding, infinities and NaN are
  outside this model; in particular `x / 0` is `0` here, so every statement about
  `normalized` carries the non-zero hypothesis the source leaves to the caller.
* The `<cmath>` functions (`std::sqrt`, `std::cos`, `std::sin`, `std::acos`,
  `std::asin`, `std::atan2`) are not part of the repository.  Each definition
  that calls one takes it as an explicit argument, in the order in which the
  body uses them; the theorems supply `Real.sqrt`, `Real.cos`, `Real.sin`,
  `Real.arccos`, `Real.arcsin`, and for `atan2 y x` the argument of the complex
  number `x + y i` (the angle in `(-π, π]` of the point `(x, y)`).
* The built-in `==` of `float`, which `operator==` applies to each component, is
  an argument `feq` of `Vector2.eq` and `Vector3.eq`.  In the exact model it is
  equality of scalars, `exactEq`; `Float32.eq` is the IEEE-754 comparison on
  binary32 bit patterns, where NaN and the two zeros are visible.
* The macros `PI`, `DEGREE_TO_RADIAN` and `RADIAN_TO_DEGREE` are token lists, as
  the preprocessor sees them: a macro that names another macro splices the
  other's tokens in, and `evalTokens` reads the spliced list the way C parses a
  chain of `*` and `/`, left to right.
* Member operators are named functions: `operator+` is `add`, `operator*(float)`
  is `mul`, the free `operator*(float, V)` is `smul`, `Quaternion::operator*`
  on quaternions is `Quaternion.mul` and on vectors `Quaternion.mulVec`.
-/

namespace MathHpp

/-- The struct `Vector2 { float x, y; }`. -/
@[ext]
structure Vector2 (K : Type) where
  x : K
  y : K

/-- The struct `Vector3 { float x, y, z; }`. -/
@[ext]
structure Vector3 (K : Type) where
  x : K
  y : K
  z : K

/-- The struct `Quaternion { float q0, q1, q2, q3; }`. -/
@[ext]
structure Quaternion (K : Type) where
  q0 : K
  q1 : K
  q2 : K
  q3 : K

variable {K : Type} [Field K]

/-! ## Vector2 -/

/-- `Vector2::operator+(const Vector2&)`. -/
def Vector2.add (a v : Vector2 K) : Vector2 K := ⟨a.x + v.x, a.y + v.y⟩

/-- `Vector2::operator-(const Vector2&)`. -/
def Vector2.sub (a v : Vector2 K) : Vector2 K := ⟨a.x - v.x, a.y - v.y⟩

/-- `Vector2::operator*(float)`. -/
def Vector2.mul (a : Vector2 K) (s : K) : Vector2 K := ⟨a.x * s, a.y * s⟩

/-- `Vector2::operator/(float)`. -/
def Vector2.div (a : Vector2 K) (s : K) : Vector2 K := ⟨a.x / s, a.y / s⟩

/-- `Vector2::operator==`, with the built-in `==` of `float` as `feq`. -/
def Vector2.eq {F : Type} (feq : F → F → Bool) (a v : Vector2 F) : Bool :=
  feq a.x v.x && feq a.y v.y

/-- `Vector2::operator!=`. -/
def Vector2.ne {F : Type} (feq : F → F → Bool) (a v : Vector2 F) : Bool := !(a.eq feq v)

/-- Unary `Vector2::operator+`. -/
def Vector2.pos (a : Vector2 K) : Vector2 K := a

/-- Unary `Vector2::operator-`. -/
def Vector2.neg (a : Vector2 K) : Vector2 K := ⟨-a.x, -a.y⟩

/-- `Vector2::lengthSq`. -/
def Vector2.lengthSq (a : Vector2 K) : K := (a.x * a.x) + (a.y * a.y)

/-- `Vector2::length`, with `std::sqrt` as `sqrt`. -/
def Vector2.length (sqrt : K → K) (a : Vector2 K) : K := sqrt a.lengthSq

/-- `Vector2::normalized`. -/
def Vector2.normalized (sqrt : K → K) (a : Vector2 K) : Vector2 K := a.div (a.length sqrt)

/-- `Vector2::distanceFrom`. -/
def Vector2.distanceFrom (sqrt : K → K) (a v : Vector2 K) : K := (v.sub a).length sqrt

/-- `Vector2::dot`. -/
def Vector2.dot (a v : Vector2 K) : K := a.x * v.x + a.y * v.y

/-- `Vector2::cross`. -/
def Vector2.cross (a v : Vector2 K) : K := a.x * v.y - a.y * v.x

/-- `Vector2::rotated`, with `std::cos` and `std::sin` as `cos` and `sin`. -/
def Vector2.rotated (cos sin : K → K) (a : Vector2 K) (angle : K) : Vector2 K :=
  ⟨a.x * cos angle - a.y * sin angle, a.x * sin angle + a.y * cos angle⟩

/-- `Vector2::Zero`. -/
def Vector2.Zero : Vector2 K := ⟨0, 0⟩

/-- `Vector2::Right`. -/
def Vector2.Right : Vector2 K := ⟨1, 0⟩

/-- `Vector2::Left`. -/
def Vector2.Left : Vector2 K := ⟨-1, 0⟩

/-- `Vector2::Top`. -/
def Vector2.Top : Vector2 K := ⟨0, -1⟩

/-- `Vector2::Down`. -/
def Vector2.Down : Vector2 K := ⟨0, 1⟩

/-- The free `operator*(float s, const Vector2& v)` of `Math.cpp`. -/
def Vector2.smul (s : K) (v : Vector2 K) : Vector2 K := ⟨v.x * s, v.y * s⟩

/-! ## Vector3 -/

/-- `Vector3::operator+(const Vector3&)`. -/
def Vector3.add (a v : Vector3 K) : Vector3 K := ⟨a.x + v.x, a.y + v.y, a.z + v.z⟩

/-- `Vector3::operator-(const Vector3&)`. -/
def Vector3.sub (a v : Vector3 K) : Vector3 K := ⟨a.x - v.x, a.y - v.y, a.z - v.z⟩

/-- `Vector3::operator*(float)`. -/
def Vector3.mul (a : Vector3 K) (s : K) : Vector3 K := ⟨a.x * s, a.y * s, a.z * s⟩

/-- `Vector3::operator/(float)`. -/
def Vector3.div (a : Vector3 K) (s : K) : Vector3 K := ⟨a.x / s, a.y / s, a.z / s⟩

/-- `Vector3::operator==`, with the built-in `==` of `float` as `feq`. -/
def Vector3.eq {F : Type} (feq : F → F → Bool) (a v : Vector3 F) : Bool :=
  feq a.x v.x && feq a.y v.y && feq a.z v.z

/-- `Vector3::operator!=`. -/
def Vector3.ne {F : Type} (feq : F → F → Bool) (a v : Vector3 F) : Bool := !(a.eq feq v)

/-- Unary `Vector3::operator+`. -/
def Vector3.pos (a : Vector3 K) : Vector3 K := a

/-- Unary `Vector3::operator-`. -/
def Vector3.neg (a : Vector3 K) : Vector3 K := ⟨-a.x, -a.y, -a.z⟩

/-- `Vector3::lengthSq`. -/
def Vector3.lengthSq (a : Vector3 K) : K := (a.x * a.x) + (a.y * a.y) + (a.z * a.z)

/-- `Vector3::length`, with `std::sqrt` as `sqrt`. -/
def Vector3.length (sqrt : K → K) (a : Vector3 K) : K := sqrt a.lengthSq

/-- `Vector3::normalized`. -/
def Vector3.normalized (sqrt : K → K) (a : Vector3 K) : Vector3 K := a.div (a.length sqrt)

/-- `Vector3::distanceFrom`. -/
def Vector3.distanceFrom (sqrt : K → K) (a v : Vector3 K) : K := (v.sub a).length sqrt

/-- `Vector3::dot`. -/
def Vector3.dot (a v : Vector3 K) : K := a.x * v.x + a.y * v.y + a.z * v.z

/-- `Vector3::cross`. -/
def Vector3.cross (a v : Vector3 K) : Vector3 K :=
  ⟨a.y * v.z - a.z * v.y, a.z * v.x - a.x * v.z, a.x * v.y - a.y * v.x⟩

/-- `Vector3::angle`, with `std::sqrt` and `std::acos` as `sqrt` and `acos`. -/
def Vector3.angle (sqrt acos : K → K) (a v : Vector3 K) : K :=
  acos ((a.normalized sqrt).dot (v.normalized sqrt))

/-- `Vector3::Zero`. -/
def Vector3.Zero : Vector3 K := ⟨0, 0, 0⟩

/-- `Vector3::Right`. -/
def Vector3.Right : Vector3 K := ⟨1, 0, 0⟩

/-- `Vector3::Left`. -/
def Vector3.Left : Vector3 K := ⟨-1, 0, 0⟩

/-- `Vector3::Top`. -/
def Vector3.Top : Vector3 K := ⟨0, -1, 0⟩

/-- `Vector3::Down`. -/
def Vector3.Down : Vector3 K := ⟨0, 1, 0⟩

/-- `Vector3::Forward`. -/
def Vector3.Forward : Vector3 K := ⟨0, 0, 1⟩

/-- `Vector3::Back`. -/
def Vector3.Back : Vector3 K := ⟨0, 0, -1⟩

/-- The free `operator*(float s, const Vector3& v)` of `Math.cpp`. -/
def Vector3.smul (s : K) (v : Vector3 K) : Vector3 K := ⟨v.x * s, v.y * s, v.z * s⟩

/-! ## Quaternion -/

/-- The private helper `Quaternion::v`: the vector part. -/
def Quaternion.v (q : Quaternion K) : Vector3 K := ⟨q.q1, q.q2, q.q3⟩

/-- The axis-angle constructor `Quaternion(const Vector3& v, float angle)`, with
`std::sqrt`, `std::cos` and `std::sin` as `sqrt`, `cos` and `sin`. -/
def Quaternion.ofAxisAngle (sqrt cos sin : K → K) (v : Vector3 K) (angle : K) :
    Quaternion K :=
  let normalizedV := v.normalized sqrt
  let c := cos (angle / 2)
  let s := sin (angle / 2)
  ⟨c, s * normalizedV.x, s * normalizedV.y, s * normalizedV.z⟩

/-- `Quaternion::Identity`. -/
def Quaternion.Identity : Quaternion K := ⟨1, 0, 0, 0⟩

/-- `Quaternion::conjugate`. -/
def Quaternion.conjugate (q : Quaternion K) : Quaternion K := ⟨q.q0, -q.q1, -q.q2, -q.q3⟩

/-- `Quaternion::magnitude`, with `std::sqrt` as `sqrt`. -/
def Quaternion.magnitude (sqrt : K → K) (q : Quaternion K) : K :=
  sqrt (q.q0 * q.q0 + q.q1 * q.q1 + q.q2 * q.q2 + q.q3 * q.q3)

/-- `Quaternion::operator*(const Quaternion& p)`. -/
def Quaternion.mul (q p : Quaternion K) : Quaternion K :=
  let nq0 := (q.q0 * p.q0) - (q.q1 * p.q1) - (q.q2 * p.q2) - (q.q3 * p.q3)
  let nq1 := (q.q0 * p.q1) + (q.q1 * p.q0) + (q.q2 * p.q3) - (q.q3 * p.q2)
  let nq2 := (q.q0 * p.q2) + (q.q2 * p.q0) - (q.q1 * p.q3) + (q.q3 * p.q1)
  let nq3 := (q.q0 * p.q3) + (q.q3 * p.q0) + (q.q1 * p.q2) - (q.q2 * p.q1)
  ⟨nq0, nq1, nq2, nq3⟩

/-- `Quaternion::normalized`. -/
def Quaternion.normalized (sqrt : K → K) (q : Quaternion K) : Quaternion K :=
  let m := q.magnitude sqrt
  ⟨q.q0 / m, q.q1 / m, q.q2 / m, q.q3 / m⟩

/-- `Quaternion::operator*(const Vector3& v)`: the sandwich
`(*this * Quaternion(0, v.x, v.y, v.z) * conjugate()).v()`. -/
def Quaternion.mulVec (q : Quaternion K) (v : Vector3 K) : Vector3 K :=
  ((q.mul ⟨0, v.x, v.y, v.z⟩).mul q.conjugate).v

/-- `Quaternion::roll`, with `std::atan2` as `atan2` (first argument `y`, second `x`). -/
def Quaternion.roll (atan2 : K → K → K) (q : Quaternion K) : K :=
  atan2 (2 * (q.q2 * q.q3 + q.q0 * q.q1))
    (q.q0 * q.q0 - q.q1 * q.q1 - q.q2 * q.q2 + q.q3 * q.q3)

/-- `Quaternion::pitch`, with `std::asin` as `asin`. -/
def Quaternion.pitch (asin : K → K) (q : Quaternion K) : K :=
  asin (2 * (q.q0 * q.q2 - q.q1 * q.q3))

/-- `Quaternion::yaw`, with `std::atan2` as `atan2` (first argument `y`, second `x`). -/
def Quaternion.yaw (atan2 : K → K → K) (q : Quaternion K) : K :=
  atan2 (2 * (q.q1 * q.q2 + q.q0 * q.q3))
    (q.q0 * q.q0 + q.q1 * q.q1 - q.q2 * q.q2 - q.q3 * q.q3)

/-! ## The built-in comparison of `float` -/

/-- Equality of scalars as the `==` of the exact model. -/
def exactEq {F : Type} [DecidableEq F] (s t : F) : Bool := decide (s = t)

/-- An IEEE-754 binary32 bit pattern: sign bit, 8 exponent bits, 23 mantissa bits. -/
structure Float32 where
  sign : Bool
  exponent : Fin 256
  mantissa : Fin 8388608
deriving DecidableEq

/-- A NaN: all exponent bits set and a non-zero mantissa. -/
def Float32.isNaN (a : Float32) : Bool := a.exponent.val == 255 && a.mantissa.val != 0

/-- A zero, of either sign: exponent and mantissa bits all clear. -/
def Float32.isZero (a : Float32) : Bool := a.exponent.val == 0 && a.mantissa.val == 0

/-- The built-in `a == b` on `float`: false when either side is NaN; otherwise true
when the two patterns are the same or both are zeros. -/
def Float32.eq (a b : Float32) : Bool :=
  !a.isNaN && !b.isNaN && (decide (a = b) || (a.isZero && b.isZero))

/-- The pattern of `+0.0f`. -/
def Float32.posZero : Float32 := ⟨false, 0, 0⟩

/-- The pattern of `-0.0f`. -/
def Float32.negZero : Float32 := ⟨true, 0, 0⟩

/-- The pattern `0x7fc00000`, a quiet NaN. -/
def Float32.quietNaN : Float32 := ⟨false, 255, 4194304⟩

/-- The pattern of `1.0f`. -/
def Float32.one : Float32 := ⟨false, 127, 0⟩

/-! ## The macros -/

/-- A preprocessing token of the three macro bodies: a floating literal, `*` or `/`. -/
inductive Token (K : Type) where
  | num : K → Token K
  | star : Token K
  | slash : Token K

/-- The rest of a chain of `*` and `/` after its first operand, read left to right with
`acc` the value so far; `none` when the tokens are not such a chain. -/
def evalTokensFrom (acc : K) : List (Token K) → Option K
  | [] => some acc
  | Token.star :: Token.num b :: rest => evalTokensFrom (acc * b) rest
  | Token.slash :: Token.num b :: rest => evalTokensFrom (acc / b) rest
  | _ => none

/-- The value of a token list that is a chain `operand (op operand)*` of `*` and `/`,
which C groups from the left. -/
def evalTokens : List (Token K) → Option K
  | Token.num a :: rest => evalTokensFrom a rest
  | _ => none

/-- The literal of `#define PI 3.14159265358979f`, as an exact scalar. -/
def PI_literal : K := 314159265358979 / 100000000000000

/-- `#define PI 3.14159265358979f`. -/
def PI : List (Token K) := [Token.num PI_literal]

/-- `#define DEGREE_TO_RADIAN 2.0f * PI / 360.0f`. -/
def DEGREE_TO_RADIAN : List (Token K) :=
  [Token.num 2, Token.star] ++ PI ++ [Token.slash, Token.num 360]

/-- `#define RADIAN_TO_DEGREE 1.0f / DEGREE_TO_RADIAN`. -/
def RADIAN_TO_DEGREE : List (Token K) :=
  [Token.num 1, Token.slash] ++ DEGREE_TO_RADIAN

/-! ## Quaternion product and rotation of vectors -/

/-- C1: rotating `v` by the product `a * b` is rotating `v` by `b` and then the result
by `a`: `(a * b) * v = a * (b * v)`, for all quaternions (unit or not). -/
theorem Quaternion.mulVec_mul (a b : Quaternion K) (v : Vector3 K) :
    (a.mul b).mulVec v = a.mulVec (b.mulVec v) := by
  ext <;>
    simp only [Quaternion.mulVec, Quaternion.mul, Quaternion.conjugate, Quaternion.v] <;>
    ring

/-- C2: for a unit quaternion `q`, rotating by `q` and then by `q.conjugate()` gives
the vector back: `q.conjugate() * (q * v) = v`. -/
theorem Quaternion.conjugate_mulVec_mulVec (q : Quaternion K) (v : Vector3 K)
    (hq : q.q0 ^ 2 + q.q1 ^ 2 + q.q2 ^ 2 + q.q3 ^ 2 = 1) :
    q.conjugate.mulVec (q.mulVec v) = v := by
  ext <;>
    simp only [Quaternion.mulVec, Quaternion.mul, Quaternion.conjugate, Quaternion.v]
  · linear_combination ((q.q0 ^ 2 + q.q1 ^ 2 + q.q2 ^ 2 + q.q3 ^ 2 + 1) * v.x) * hq
  · linear_combination ((q.q0 ^ 2 + q.q1 ^ 2 + q.q2 ^ 2 + q.q3 ^ 2 + 1) * v.y) * hq
  · linear_combination ((q.q0 ^ 2 + q.q1 ^ 2 + q.q2 ^ 2 + q.q3 ^ 2 + 1) * v.z) * hq

/-- The unit quaternion `(3/5, 0, 4/5, 0)` over `ℚ` and the vector `(1, 2, 3)`: rotating
there and back returns `(1, 2, 3)`. -/
theorem Quaternion.conjugate_mulVec_mulVec_witness :
    (⟨3 / 5, 0, 4 / 5, 0⟩ : Quaternion ℚ).conjugate.mulVec
      ((⟨3 / 5, 0, 4 / 5, 0⟩ : Quaternion ℚ).mulVec ⟨1, 2, 3⟩) = ⟨1, 2, 3⟩ :=
  Quaternion.conjugate_mulVec_mulVec ⟨3 / 5, 0, 4 / 5, 0⟩ ⟨1, 2, 3⟩ (by norm_num)

/-- C3: `Quaternion::operator*(Quaternion)` is the Hamilton product: the scalar part of
`a * b` is `a0 * b0 - va.dot(vb)` and its vector part is
`a0 * vb + b0 * va + va.cross(vb)`, with `va`, `vb` the vector parts of `a`, `b`. -/
theorem Quaternion.mul_eq_hamilton (a b : Quaternion K) :
    (a.mul b).q0 = a.q0 * b.q0 - a.v.dot b.v ∧
      (a.mul b).v =
        ((Vector3.smul a.q0 b.v).add (Vector3.smul b.q0 a.v)).add (a.v.cross b.v) := by
  refine ⟨?_, ?_⟩
  · simp only [Quaternion.mul, Quaternion.v, Vector3.dot]
    ring
  · ext <;>
      simp only [Quaternion.mul, Quaternion.v, Vector3.smul, Vector3.add, Vector3.cross] <;>
      ring

/-- C4: the identity quaternion leaves every vector unchanged:
`Quaternion::Identity() * v = v`. -/
theorem Quaternion.Identity_mulVec (v : Vector3 K) :
    (Quaternion.Identity : Quaternion K).mulVec v = v := by
  ext <;>
    simp only [Quaternion.mulVec, Quaternion.mul, Quaternion.conjugate, Quaternion.v,
      Quaternion.Identity] <;>
    ring

/-- C8: for a unit quaternion the conjugate is a two-sided inverse:
`q * q.conjugate()` and `q.conjugate() * q` are both `(1, 0, 0, 0)`. -/
theorem Quaternion.mul_conjugate_of_unit (q : Quaternion K)
    (hq : q.q0 ^ 2 + q.q1 ^ 2 + q.q2 ^ 2 + q.q3 ^ 2 = 1) :
    q.mul q.conjugate = Quaternion.Identity ∧ q.conjugate.mul q = Quaternion.Identity := by
  refine ⟨?_, ?_⟩ <;> ext <;>
    simp only [Quaternion.mul, Quaternion.conjugate, Quaternion.Identity] <;>
    first
      | ring1
      | linear_combination hq

/-- The unit quaternion `(1/2, 1/2, 1/2, 1/2)` over `ℚ` times its conjugate, on either
side, is the identity. -/
theorem Quaternion.mul_conjugate_of_unit_witness :
    (⟨1 / 2, 1 / 2, 1 / 2, 1 / 2⟩ : Quaternion ℚ).mul
        (⟨1 / 2, 1 / 2, 1 / 2, 1 / 2⟩ : Quaternion ℚ).conjugate = Quaternion.Identity ∧
      (⟨1 / 2, 1 / 2, 1 / 2, 1 / 2⟩ : Quaternion ℚ).conjugate.mul
        ⟨1 / 2, 1 / 2, 1 / 2, 1 / 2⟩ = Quaternion.Identity :=
  Quaternion.mul_conjugate_of_unit ⟨1 / 2, 1 / 2, 1 / 2, 1 / 2⟩ (by norm_num)

/-! ## Statements over `ℝ`, with the `<cmath>` functions supplied -/

/-- The angle of the point `(cos t, sin t)` is `t` when `-π < t ≤ π`: what `atan2`
returns on the unit circle. -/
theorem arg_mk_cos_sin (t : ℝ) (h1 : -Real.pi < t) (h2 : t ≤ Real.pi) :
    Complex.arg ⟨Real.cos t, Real.sin t⟩ = t := by
  have h : (⟨Real.cos t, Real.sin t⟩ : ℂ) =
      Complex.cos (t : ℂ) + Complex.sin (t : ℂ) * Complex.I := by
    apply Complex.ext
    · simp [← Complex.ofReal_cos, ← Complex.ofReal_sin]
    · simp [← Complex.ofReal_cos, ← Complex.ofReal_sin]
  rw [h]
  exact Complex.arg_cos_add_sin_mul_I ⟨h1, h2⟩

/-- Double-angle form of the sine, as the Euler extractors meet it. -/
theorem two_mul_cos_half_mul_sin_half (t : ℝ) :
    2 * (Real.cos (t / 2) * Real.sin (t / 2)) = Real.sin t := by
  have h := Real.sin_two_mul (t / 2)
  rw [show 2 * (t / 2) = t by ring] at h
  rw [h]
  ring

/-- Double-angle form of the cosine, as the Euler extractors meet it. -/
theorem cos_half_sq_sub_sin_half_sq (t : ℝ) :
    Real.cos (t / 2) * Real.cos (t / 2) - Real.sin (t / 2) * Real.sin (t / 2) =
      Real.cos t := by
  have h := Real.cos_two_mul (t / 2)
  rw [show 2 * (t / 2) = t by ring] at h
  have h2 := Real.sin_sq_add_cos_sq (t / 2)
  rw [h]
  linear_combination (-1 : ℝ) * h2

/-- A non-zero `Vector3` has positive squared length. -/
theorem Vector3.lengthSq_pos_of_ne_Zero3 (a : Vector3 ℝ) (ha : a ≠ Vector3.Zero) :
    0 < a.lengthSq := by
  have h0 : 0 ≤ a.lengthSq := by
    simp only [Vector3.lengthSq]
    exact add_nonneg (add_nonneg (mul_self_nonneg _) (mul_self_nonneg _)) (mul_self_nonneg _)
  rcases h0.lt_or_eq with h | h
  · exact h
  · exfalso
    apply ha
    simp only [Vector3.lengthSq] at h
    have hx : a.x = 0 := by
      nlinarith [mul_self_nonneg a.x, mul_self_nonneg a.y, mul_self_nonneg a.z]
    have hy : a.y = 0 := by
      nlinarith [mul_self_nonneg a.x, mul_self_nonneg a.y, mul_self_nonneg a.z]
    have hz : a.z = 0 := by
      nlinarith [mul_self_nonneg a.x, mul_self_nonneg a.y, mul_self_nonneg a.z]
    ext <;> simp [Vector3.Zero, hx, hy, hz]

/-- A non-zero `Vector2` has positive squared length. -/
theorem Vector2.lengthSq_pos_of_ne_Zero2 (a : Vector2 ℝ) (ha : a ≠ Vector2.Zero) :
    0 < a.lengthSq := by
  have h0 : 0 ≤ a.lengthSq := by
    simp only [Vector2.lengthSq]
    exact add_nonneg (mul_self_nonneg _) (mul_self_nonneg _)
  rcases h0.lt_or_eq with h | h
  · exact h
  · exfalso
    apply ha
    simp only [Vector2.lengthSq] at h
    have hx : a.x = 0 := by
      nlinarith [mul_self_nonneg a.x, mul_self_nonneg a.y]
    have hy : a.y = 0 := by
      nlinarith [mul_self_nonneg a.x, mul_self_nonneg a.y]
    ext <;> simp [Vector2.Zero, hx, hy]

/-- A quaternion `(c, k * a)` with `c² + k² |a|² = 1` fixes `a`. -/
theorem Quaternion.mulVec_axis (c k : K) (a : Vector3 K)
    (h : c * c + k * k * a.lengthSq = 1) :
    (⟨c, k * a.x, k * a.y, k * a.z⟩ : Quaternion K).mulVec a = a := by
  simp only [Vector3.lengthSq] at h
  ext <;>
    simp only [Quaternion.mulVec, Quaternion.mul, Quaternion.conjugate, Quaternion.v]
  · linear_combination a.x * h
  · linear_combination a.y * h
  · linear_combination a.z * h

/-- C5: the quaternion built from axis `Forward = (0,0,1)` and angle `π` rotates
`Right = (1,0,0)` to `Left = (-1,0,0)`. -/
theorem Quaternion.ofAxisAngle_Forward_pi_mulVec_Right :
    (Quaternion.ofAxisAngle Real.sqrt Real.cos Real.sin Vector3.Forward Real.pi).mulVec
      Vector3.Right = Vector3.Left := by
  ext <;>
    simp [Quaternion.ofAxisAngle, Quaternion.mulVec, Quaternion.mul, Quaternion.conjugate,
      Quaternion.v, Vector3.normalized, Vector3.length, Vector3.lengthSq, Vector3.div,
      Vector3.Forward, Vector3.Right, Vector3.Left]

/-- C6: Euler extraction undoes single-axis axis-angle construction: for `-π < t < π`
the roll of `Quaternion(Right, t)` and the yaw of `Quaternion(Forward, t)` are `t`, and
for `-π/2 < t < π/2` the pitch of `Quaternion(Down, t)` is `t`. -/
theorem Quaternion.euler_ofAxisAngle (t : ℝ) :
    (-Real.pi < t → t < Real.pi →
      (Quaternion.ofAxisAngle Real.sqrt Real.cos Real.sin Vector3.Right t).roll
          (fun y x => Complex.arg ⟨x, y⟩) = t ∧
        (Quaternion.ofAxisAngle Real.sqrt Real.cos Real.sin Vector3.Forward t).yaw
          (fun y x => Complex.arg ⟨x, y⟩) = t) ∧
      (-(Real.pi / 2) < t → t < Real.pi / 2 →
        (Quaternion.ofAxisAngle Real.sqrt Real.cos Real.sin Vector3.Down t).pitch
          Real.arcsin = t) := by
  refine ⟨fun h1 h2 => ⟨?_, ?_⟩, fun h1 h2 => ?_⟩
  · have e : (Quaternion.ofAxisAngle Real.sqrt Real.cos Real.sin Vector3.Right t).roll
        (fun y x => Complex.arg ⟨x, y⟩) =
        Complex.arg ⟨Real.cos (t / 2) * Real.cos (t / 2) - Real.sin (t / 2) * Real.sin (t / 2),
          2 * (Real.cos (t / 2) * Real.sin (t / 2))⟩ := by
      simp [Quaternion.roll, Quaternion.ofAxisAngle, Vector3.normalized, Vector3.length,
        Vector3.lengthSq, Vector3.div, Vector3.Right]
    rw [e, two_mul_cos_half_mul_sin_half, cos_half_sq_sub_sin_half_sq]
    exact arg_mk_cos_sin t h1 h2.le
  · have e : (Quaternion.ofAxisAngle Real.sqrt Real.cos Real.sin Vector3.Forward t).yaw
        (fun y x => Complex.arg ⟨x, y⟩) =
        Complex.arg ⟨Real.cos (t / 2) * Real.cos (t / 2) - Real.sin (t / 2) * Real.sin (t / 2),
          2 * (Real.cos (t / 2) * Real.sin (t / 2))⟩ := by
      simp [Quaternion.yaw, Quaternion.ofAxisAngle, Vector3.normalized, Vector3.length,
        Vector3.lengthSq, Vector3.div, Vector3.Forward]
    rw [e, two_mul_cos_half_mul_sin_half, cos_half_sq_sub_sin_half_sq]
    exact arg_mk_cos_sin t h1 h2.le
  · have e : (Quaternion.ofAxisAngle Real.sqrt Real.cos Real.sin Vector3.Down t).pitch
        Real.arcsin = Real.arcsin (2 * (Real.cos (t / 2) * Real.sin (t / 2))) := by
      simp [Quaternion.pitch, Quaternion.ofAxisAngle, Vector3.normalized, Vector3.length,
        Vector3.lengthSq, Vector3.div, Vector3.Down]
    rw [e, two_mul_cos_half_mul_sin_half]
    exact Real.arcsin_sin h1.le h2.le

/-- At `t = 1` (inside both ranges): roll, yaw and pitch of the three single-axis
quaternions of angle `1` are `1`. -/
theorem Quaternion.euler_ofAxisAngle_witness :
    ((Quaternion.ofAxisAngle Real.sqrt Real.cos Real.sin Vector3.Right 1).roll
          (fun y x => Complex.arg ⟨x, y⟩) = 1 ∧
        (Quaternion.ofAxisAngle Real.sqrt Real.cos Real.sin Vector3.Forward 1).yaw
          (fun y x => Complex.arg ⟨x, y⟩) = 1) ∧
      (Quaternion.ofAxisAngle Real.sqrt Real.cos Real.sin Vector3.Down 1).pitch
        Real.arcsin = 1 :=
  ⟨(Quaternion.euler_ofAxisAngle 1).1 (by linarith [Real.pi_gt_three])
      (by linarith [Real.pi_gt_three]),
    (Quaternion.euler_ofAxisAngle 1).2 (by linarith [Real.pi_gt_three])
      (by linarith [Real.pi_gt_three])⟩

/-- C7: the axis-angle quaternion is a rotation about its own axis: for a non-zero axis
`a` and any angle `t`, `Quaternion(a, t) * a = a`. -/
theorem Quaternion.ofAxisAngle_mulVec_axis (a : Vector3 ℝ) (t : ℝ)
    (ha : a ≠ Vector3.Zero) :
    (Quaternion.ofAxisAngle Real.sqrt Real.cos Real.sin a t).mulVec a = a := by
  have hpos : 0 < a.lengthSq := Vector3.lengthSq_pos_of_ne_Zero3 a ha
  have hL : Real.sqrt a.lengthSq ≠ 0 := (Real.sqrt_pos.mpr hpos).ne'
  have hLL : Real.sqrt a.lengthSq * Real.sqrt a.lengthSq = a.lengthSq :=
    Real.mul_self_sqrt hpos.le
  have e : Quaternion.ofAxisAngle Real.sqrt Real.cos Real.sin a t =
      ⟨Real.cos (t / 2), Real.sin (t / 2) / Real.sqrt a.lengthSq * a.x,
        Real.sin (t / 2) / Real.sqrt a.lengthSq * a.y,
        Real.sin (t / 2) / Real.sqrt a.lengthSq * a.z⟩ := by
    ext <;>
      simp only [Quaternion.ofAxisAngle, Vector3.normalized, Vector3.length, Vector3.div] <;>
      ring
  rw [e]
  apply Quaternion.mulVec_axis
  have hk : Real.sin (t / 2) / Real.sqrt a.lengthSq *
      (Real.sin (t / 2) / Real.sqrt a.lengthSq) * a.lengthSq =
      Real.sin (t / 2) * Real.sin (t / 2) := by
    nth_rewrite 3 [← hLL]
    field_simp
  rw [hk]
  have h2 := Real.sin_sq_add_cos_sq (t / 2)
  linear_combination h2

/-- The axis `(1, 2, 2)` and angle `1`: the quaternion built from them fixes the axis. -/
theorem Quaternion.ofAxisAngle_mulVec_axis_witness :
    (Quaternion.ofAxisAngle Real.sqrt Real.cos Real.sin (⟨1, 2, 2⟩ : Vector3 ℝ) 1).mulVec
      ⟨1, 2, 2⟩ = ⟨1, 2, 2⟩ :=
  Quaternion.ofAxisAngle_mulVec_axis ⟨1, 2, 2⟩ 1 (by simp [Vector3.Zero])

/-- C9: normalizing a quaternion of non-zero magnitude yields magnitude `1`. -/
theorem Quaternion.magnitude_normalized (q : Quaternion ℝ)
    (hq : q.magnitude Real.sqrt ≠ 0) :
    (q.normalized Real.sqrt).magnitude Real.sqrt = 1 := by
  have h0 : 0 ≤ q.q0 * q.q0 + q.q1 * q.q1 + q.q2 * q.q2 + q.q3 * q.q3 :=
    add_nonneg (add_nonneg (add_nonneg (mul_self_nonneg _) (mul_self_nonneg _))
      (mul_self_nonneg _)) (mul_self_nonneg _)
  have hmm : q.magnitude Real.sqrt * q.magnitude Real.sqrt =
      q.q0 * q.q0 + q.q1 * q.q1 + q.q2 * q.q2 + q.q3 * q.q3 := Real.mul_self_sqrt h0
  have e : (q.normalized Real.sqrt).magnitude Real.sqrt = Real.sqrt 1 := by
    simp only [Quaternion.normalized]
    generalize q.magnitude Real.sqrt = m at hq hmm
    simp only [Quaternion.magnitude]
    congr 1
    field_simp
    linear_combination (-1 : ℝ) * hmm
  rw [e, Real.sqrt_one]

/-- The quaternion `(1, 2, 2, 4)` has magnitude `5`; its normalization has magnitude `1`. -/
theorem Quaternion.magnitude_normalized_witness :
    ((⟨1, 2, 2, 4⟩ : Quaternion ℝ).normalized Real.sqrt).magnitude Real.sqrt = 1 :=
  Quaternion.magnitude_normalized ⟨1, 2, 2, 4⟩
    (by
      simp only [Quaternion.magnitude]
      exact (Real.sqrt_pos.mpr (by norm_num)).ne')

/-- C10: normalizing a non-zero vector yields unit length, for `Vector2` and for
`Vector3`. -/
theorem Vector.length_normalized :
    (∀ v : Vector2 ℝ, v ≠ Vector2.Zero → (v.normalized Real.sqrt).length Real.sqrt = 1) ∧
      (∀ v : Vector3 ℝ, v ≠ Vector3.Zero →
        (v.normalized Real.sqrt).length Real.sqrt = 1) := by
  refine ⟨fun v hv => ?_, fun v hv => ?_⟩
  · have hpos : 0 < v.lengthSq := Vector2.lengthSq_pos_of_ne_Zero2 v hv
    have hL : v.length Real.sqrt ≠ 0 := (Real.sqrt_pos.mpr hpos).ne'
    have hLL : v.length Real.sqrt * v.length Real.sqrt = v.x * v.x + v.y * v.y :=
      Real.mul_self_sqrt hpos.le
    have e : (v.normalized Real.sqrt).length Real.sqrt = Real.sqrt 1 := by
      simp only [Vector2.normalized]
      generalize v.length Real.sqrt = m at hL hLL
      simp only [Vector2.length, Vector2.lengthSq, Vector2.div]
      congr 1
      field_simp
      linear_combination (-1 : ℝ) * hLL
    rw [e, Real.sqrt_one]
  · have hpos : 0 < v.lengthSq := Vector3.lengthSq_pos_of_ne_Zero3 v hv
    have hL : v.length Real.sqrt ≠ 0 := (Real.sqrt_pos.mpr hpos).ne'
    have hLL : v.length Real.sqrt * v.length Real.sqrt =
        v.x * v.x + v.y * v.y + v.z * v.z := Real.mul_self_sqrt hpos.le
    have e : (v.normalized Real.sqrt).length Real.sqrt = Real.sqrt 1 := by
      simp only [Vector3.normalized]
      generalize v.length Real.sqrt = m at hL hLL
      simp only [Vector3.length, Vector3.lengthSq, Vector3.div]
      congr 1
      field_simp
      linear_combination (-1 : ℝ) * hLL
    rw [e, Real.sqrt_one]

/-- The vectors `(3, 4)` and `(1, 2, 2)`: their normalizations have length `1`. -/
theorem Vector.length_normalized_witness :
    ((⟨3, 4⟩ : Vector2 ℝ).normalized Real.sqrt).length Real.sqrt = 1 ∧
      ((⟨1, 2, 2⟩ : Vector3 ℝ).normalized Real.sqrt).length Real.sqrt = 1 :=
  ⟨Vector.length_normalized.1 ⟨3, 4⟩ (by simp [Vector2.Zero]),
    Vector.length_normalized.2 ⟨1, 2, 2⟩ (by simp [Vector3.Zero])⟩

/-! ## Vector arithmetic -/

/-- C11: rotating `Vector2::Right() = (1,0)` by `π/2` with `rotated` gives
`Vector2::Down() = (0,1)`, and not `Vector2::Top() = (0,-1)`. -/
theorem Vector2.Right_rotated_half_pi :
    (Vector2.Right : Vector2 ℝ).rotated Real.cos Real.sin (Real.pi / 2) = Vector2.Down ∧
      (Vector2.Right : Vector2 ℝ).rotated Real.cos Real.sin (Real.pi / 2) ≠ Vector2.Top := by
  have e : (Vector2.Right : Vector2 ℝ).rotated Real.cos Real.sin (Real.pi / 2) =
      Vector2.Down := by
    ext <;> simp [Vector2.rotated, Vector2.Right, Vector2.Down]
  refine ⟨e, ?_⟩
  rw [e]
  intro h
  have hy := congrArg Vector2.y h
  simp only [Vector2.Down, Vector2.Top] at hy
  norm_num at hy

/-- C12: for every `Vector2` and every `Vector3`, with `==` the type's own `operator==`:
`v + Zero() == v`, `v - v == Zero()` and `-(-v) == v`. -/
theorem Vector.add_Zero_sub_self_neg_neg [DecidableEq K] :
    (∀ v : Vector2 K,
        (v.add Vector2.Zero).eq exactEq v = true ∧
          (v.sub v).eq exactEq Vector2.Zero = true ∧ v.neg.neg.eq exactEq v = true) ∧
      (∀ v : Vector3 K,
        (v.add Vector3.Zero).eq exactEq v = true ∧
          (v.sub v).eq exactEq Vector3.Zero = true ∧ v.neg.neg.eq exactEq v = true) := by
  refine ⟨fun v => ?_, fun v => ?_⟩
  · simp [Vector2.eq, Vector2.add, Vector2.sub, Vector2.neg, Vector2.Zero, exactEq]
  · simp [Vector3.eq, Vector3.add, Vector3.sub, Vector3.neg, Vector3.Zero, exactEq]

/-- C13: scalar division undoes scalar multiplication: for `s ≠ 0`, `(v * s) / s = v`,
for `Vector2` and for `Vector3`. -/
theorem Vector.mul_div_cancel_scalar (s : K) (hs : s ≠ 0) :
    (∀ v : Vector2 K, (v.mul s).div s = v) ∧ (∀ v : Vector3 K, (v.mul s).div s = v) := by
  refine ⟨fun v => ?_, fun v => ?_⟩
  · ext <;> simp [Vector2.mul, Vector2.div, hs]
  · ext <;> simp [Vector3.mul, Vector3.div, hs]

/-- The scalar `3` over `ℚ`, on `(1, 2)` and `(1, 2, 5)`. -/
theorem Vector.mul_div_cancel_scalar_witness :
    (((⟨1, 2⟩ : Vector2 ℚ).mul 3).div 3 = ⟨1, 2⟩) ∧
      (((⟨1, 2, 5⟩ : Vector3 ℚ).mul 3).div 3 = ⟨1, 2, 5⟩) :=
  ⟨(Vector.mul_div_cancel_scalar (3 : ℚ) (by norm_num)).1 ⟨1, 2⟩,
    (Vector.mul_div_cancel_scalar (3 : ℚ) (by norm_num)).2 ⟨1, 2, 5⟩⟩

/-- C14: the cross product is anti-commutative: for `Vector3`,
`a.cross(b) = -(b.cross(a))` with the unary `operator-`, and for `Vector2` the scalar
`a.cross(b)` is `-(b.cross(a))`. -/
theorem Vector.cross_anticomm :
    (∀ a b : Vector3 K, a.cross b = (b.cross a).neg) ∧
      (∀ a b : Vector2 K, a.cross b = -(b.cross a)) := by
  refine ⟨fun a b => ?_, fun a b => ?_⟩
  · ext <;> simp only [Vector3.cross, Vector3.neg] <;> ring
  · simp only [Vector2.cross]
    ring

/-- The normalization of a non-zero `Vector3` has squared length `1`. -/
theorem Vector3.lengthSq_normalized_of_ne_Zero (v : Vector3 ℝ) (hv : v ≠ Vector3.Zero) :
    (v.normalized Real.sqrt).lengthSq = 1 := by
  have hpos : 0 < v.lengthSq := Vector3.lengthSq_pos_of_ne_Zero3 v hv
  have hL : v.length Real.sqrt ≠ 0 := (Real.sqrt_pos.mpr hpos).ne'
  have hLL : v.length Real.sqrt * v.length Real.sqrt =
      v.x * v.x + v.y * v.y + v.z * v.z := Real.mul_self_sqrt hpos.le
  simp only [Vector3.normalized]
  generalize v.length Real.sqrt = m at hL hLL
  simp only [Vector3.lengthSq, Vector3.div]
  field_simp
  linear_combination (-1 : ℝ) * hLL

/-- Two vectors of squared length `1` have a dot product between `-1` and `1`. -/
theorem Vector3.dot_mem_of_unit (n m : Vector3 ℝ) (hn : n.lengthSq = 1)
    (hm : m.lengthSq = 1) : -1 ≤ n.dot m ∧ n.dot m ≤ 1 := by
  simp only [Vector3.lengthSq] at hn hm
  simp only [Vector3.dot]
  constructor
  · nlinarith [sq_nonneg (n.x + m.x), sq_nonneg (n.y + m.y), sq_nonneg (n.z + m.z)]
  · nlinarith [sq_nonneg (n.x - m.x), sq_nonneg (n.y - m.y), sq_nonneg (n.z - m.z)]

/-- C15: for non-zero `a` and `b`, `a.angle(b)` is the arccos of the dot product of the
two normalized vectors: that dot product lies in `[-1, 1]`, the angle lies in `[0, π]`
and its cosine is the dot product. -/
theorem Vector3.angle_eq_arccos (a b : Vector3 ℝ) (ha : a ≠ Vector3.Zero)
    (hb : b ≠ Vector3.Zero) :
    a.angle Real.sqrt Real.arccos b =
        Real.arccos ((a.normalized Real.sqrt).dot (b.normalized Real.sqrt)) ∧
      -1 ≤ (a.normalized Real.sqrt).dot (b.normalized Real.sqrt) ∧
      (a.normalized Real.sqrt).dot (b.normalized Real.sqrt) ≤ 1 ∧
      0 ≤ a.angle Real.sqrt Real.arccos b ∧
      a.angle Real.sqrt Real.arccos b ≤ Real.pi ∧
      Real.cos (a.angle Real.sqrt Real.arccos b) =
        (a.normalized Real.sqrt).dot (b.normalized Real.sqrt) := by
  have hd := Vector3.dot_mem_of_unit _ _ (Vector3.lengthSq_normalized_of_ne_Zero a ha)
    (Vector3.lengthSq_normalized_of_ne_Zero b hb)
  refine ⟨rfl, hd.1, hd.2, ?_, ?_, ?_⟩
  · exact Real.arccos_nonneg _
  · exact Real.arccos_le_pi _
  · exact Real.cos_arccos hd.1 hd.2

/-- The vectors `(1, 2, 2)` and `(3, 0, 4)`. -/
theorem Vector3.angle_eq_arccos_witness :
    (⟨1, 2, 2⟩ : Vector3 ℝ).angle Real.sqrt Real.arccos ⟨3, 0, 4⟩ =
        Real.arccos (((⟨1, 2, 2⟩ : Vector3 ℝ).normalized Real.sqrt).dot
          ((⟨3, 0, 4⟩ : Vector3 ℝ).normalized Real.sqrt)) ∧
      -1 ≤ ((⟨1, 2, 2⟩ : Vector3 ℝ).normalized Real.sqrt).dot
          ((⟨3, 0, 4⟩ : Vector3 ℝ).normalized Real.sqrt) ∧
      ((⟨1, 2, 2⟩ : Vector3 ℝ).normalized Real.sqrt).dot
          ((⟨3, 0, 4⟩ : Vector3 ℝ).normalized Real.sqrt) ≤ 1 ∧
      0 ≤ (⟨1, 2, 2⟩ : Vector3 ℝ).angle Real.sqrt Real.arccos ⟨3, 0, 4⟩ ∧
      (⟨1, 2, 2⟩ : Vector3 ℝ).angle Real.sqrt Real.arccos ⟨3, 0, 4⟩ ≤ Real.pi ∧
      Real.cos ((⟨1, 2, 2⟩ : Vector3 ℝ).angle Real.sqrt Real.arccos ⟨3, 0, 4⟩) =
        ((⟨1, 2, 2⟩ : Vector3 ℝ).normalized Real.sqrt).dot
          ((⟨3, 0, 4⟩ : Vector3 ℝ).normalized Real.sqrt) :=
  Vector3.angle_eq_arccos ⟨1, 2, 2⟩ ⟨3, 0, 4⟩ (by simp [Vector3.Zero])
    (by simp [Vector3.Zero])

/-! ## Equality of vectors on `float` bit patterns -/

/-- The built-in `==` in words: neither side is NaN, and the patterns are the same or
both are zeros. -/
theorem Float32.eq_iff (x y : Float32) :
    Float32.eq x y = true ↔
      x.isNaN = false ∧ y.isNaN = false ∧ (x = y ∨ (x.isZero = true ∧ y.isZero = true)) := by
  simp [Float32.eq, and_assoc]

/-- C16, as the code has it: `a == b` is true exactly when every pair of corresponding
components compares equal under the built-in `==` of `float` (neither is NaN, and the two
are the same pattern or both zeros), and `a != b` is the negation of `a == b`. -/
theorem Vector.eq_iff_components_float_eq :
    (∀ a b : Vector2 Float32,
        (a.eq Float32.eq b = true ↔
          Float32.eq a.x b.x = true ∧ Float32.eq a.y b.y = true) ∧
        a.ne Float32.eq b = !(a.eq Float32.eq b)) ∧
      (∀ a b : Vector3 Float32,
        (a.eq Float32.eq b = true ↔
          Float32.eq a.x b.x = true ∧ Float32.eq a.y b.y = true ∧
            Float32.eq a.z b.z = true) ∧
        a.ne Float32.eq b = !(a.eq Float32.eq b)) ∧
      (∀ x y : Float32, Float32.eq x y = true ↔
        x.isNaN = false ∧ y.isNaN = false ∧
          (x = y ∨ (x.isZero = true ∧ y.isZero = true))) := by
  refine ⟨fun a b => ⟨?_, rfl⟩, fun a b => ⟨?_, rfl⟩, Float32.eq_iff⟩
  · simp only [Vector2.eq, Bool.and_eq_true]
  · simp only [Vector3.eq, Bool.and_eq_true, and_assoc]

/-- C16 as stated fails: `(+0, 1) == (-0, 1)` is true although the first components
differ in the sign bit, and `(NaN, 1) == (NaN, 1)` is false although the two vectors are
the same bit for bit. -/
theorem Vector.eq_not_bit_for_bit :
    Vector2.eq Float32.eq ⟨Float32.posZero, Float32.one⟩ ⟨Float32.negZero, Float32.one⟩ =
        true ∧
      Float32.posZero ≠ Float32.negZero ∧
      Vector2.eq Float32.eq ⟨Float32.quietNaN, Float32.one⟩
        ⟨Float32.quietNaN, Float32.one⟩ = false := by
  refine ⟨by decide, by decide, by decide⟩

/-! ## The conversion macros -/

/-- C17 on the code: `RADIAN_TO_DEGREE` expands to `1.0f / 2.0f * PI / 360.0f`, which C
reads as `((1 / 2) * PI) / 360 = PI / 720`, not as the reciprocal of
`DEGREE_TO_RADIAN = 2 * PI / 360`; `x * RADIAN_TO_DEGREE` is `x * PI / 720`, and
`RADIAN_TO_DEGREE` times `2 * PI / 360` is not `1`. -/
theorem radianToDegree_not_reciprocal :
    evalTokens (DEGREE_TO_RADIAN : List (Token ℚ)) = some (2 * PI_literal / 360) ∧
      evalTokens (RADIAN_TO_DEGREE : List (Token ℚ)) = some (PI_literal / 720) ∧
      (∀ x : ℚ, evalTokens ([Token.num x, Token.star] ++ RADIAN_TO_DEGREE) =
        some (x * PI_literal / 720)) ∧
      evalTokens ([Token.num 1, Token.star] ++ (RADIAN_TO_DEGREE : List (Token ℚ))) ≠
        some (1 / (2 * PI_literal / 360)) ∧
      (PI_literal / 720 : ℚ) ≠ 1 / (2 * PI_literal / 360) ∧
      (PI_literal / 720 : ℚ) * (2 * PI_literal / 360) ≠ 1 := by
  refine ⟨?_, ?_, fun x => ?_, ?_, ?_, ?_⟩
  · simp [evalTokens, evalTokensFrom, DEGREE_TO_RADIAN, PI]
  · simp only [evalTokens, evalTokensFrom, RADIAN_TO_DEGREE, DEGREE_TO_RADIAN, PI,
      List.cons_append, List.nil_append, Option.some.injEq]
    ring
  · simp only [evalTokens, evalTokensFrom, RADIAN_TO_DEGREE, DEGREE_TO_RADIAN, PI,
      List.cons_append, List.nil_append, Option.some.injEq]
    ring
  · simp only [evalTokens, evalTokensFrom, RADIAN_TO_DEGREE, DEGREE_TO_RADIAN, PI,
      List.cons_append, List.nil_append, Option.some.injEq, ne_eq, PI_literal]
    norm_num
  · simp only [PI_literal]
    norm_num
  · simp only [PI_literal]
    norm_num

/-! ## Unit quaternions -/

/-- C18: rotation by a unit quaternion preserves the squared length of a vector, hence
its length. -/
theorem Quaternion.lengthSq_mulVec_of_unit (q : Quaternion K) (v : Vector3 K)
    (hq : q.q0 ^ 2 + q.q1 ^ 2 + q.q2 ^ 2 + q.q3 ^ 2 = 1) :
    (q.mulVec v).lengthSq = v.lengthSq ∧
      ∀ sqrt : K → K, (q.mulVec v).length sqrt = v.length sqrt := by
  have h : (q.mulVec v).lengthSq = v.lengthSq := by
    simp only [Quaternion.mulVec, Quaternion.mul, Quaternion.conjugate, Quaternion.v,
      Vector3.lengthSq]
    linear_combination
      ((q.q0 ^ 2 + q.q1 ^ 2 + q.q2 ^ 2 + q.q3 ^ 2 + 1) *
        (v.x * v.x + v.y * v.y + v.z * v.z)) * hq
  refine ⟨h, fun sqrt => ?_⟩
  simp only [Vector3.length, h]

/-- The unit quaternion `(3/5, 0, 4/5, 0)` over `ℚ` and the vector `(1, 2, 3)`. -/
theorem Quaternion.lengthSq_mulVec_of_unit_witness :
    ((⟨3 / 5, 0, 4 / 5, 0⟩ : Quaternion ℚ).mulVec ⟨1, 2, 3⟩).lengthSq =
        (⟨1, 2, 3⟩ : Vector3 ℚ).lengthSq ∧
      ∀ sqrt : ℚ → ℚ, ((⟨3 / 5, 0, 4 / 5, 0⟩ : Quaternion ℚ).mulVec ⟨1, 2, 3⟩).length sqrt =
        (⟨1, 2, 3⟩ : Vector3 ℚ).length sqrt :=
  Quaternion.lengthSq_mulVec_of_unit ⟨3 / 5, 0, 4 / 5, 0⟩ ⟨1, 2, 3⟩ (by norm_num)

/-- C19: the axis-angle constructor produces a unit quaternion: for a non-zero axis `a`
and any angle `t`, `Quaternion(a, t).magnitude() = 1`. -/
theorem Quaternion.magnitude_ofAxisAngle (a : Vector3 ℝ) (t : ℝ)
    (ha : a ≠ Vector3.Zero) :
    (Quaternion.ofAxisAngle Real.sqrt Real.cos Real.sin a t).magnitude Real.sqrt = 1 := by
  have hn := Vector3.lengthSq_normalized_of_ne_Zero a ha
  have hcs := Real.sin_sq_add_cos_sq (t / 2)
  have e : (Quaternion.ofAxisAngle Real.sqrt Real.cos Real.sin a t).magnitude Real.sqrt =
      Real.sqrt 1 := by
    simp only [Quaternion.ofAxisAngle, Quaternion.magnitude]
    generalize a.normalized Real.sqrt = n at hn
    simp only [Vector3.lengthSq] at hn
    congr 1
    linear_combination hcs + Real.sin (t / 2) ^ 2 * hn
  rw [e, Real.sqrt_one]

/-- The axis `(1, 2, 2)` and angle `1`. -/
theorem Quaternion.magnitude_ofAxisAngle_witness :
    (Quaternion.ofAxisAngle Real.sqrt Real.cos Real.sin (⟨1, 2, 2⟩ : Vector3 ℝ)
      1).magnitude Real.sqrt = 1 :=
  Quaternion.magnitude_ofAxisAngle ⟨1, 2, 2⟩ 1 (by simp [Vector3.Zero])

/-- C20: for a unit quaternion the argument `2 * (q0 * q2 - q1 * q3)` that `pitch()`
passes to `asin` lies in `[-1, 1]`; so `pitch()` lies in `[-π/2, π/2]` and its sine is
that argument. -/
theorem Quaternion.pitch_arg_mem_of_unit (q : Quaternion ℝ)
    (hq : q.q0 ^ 2 + q.q1 ^ 2 + q.q2 ^ 2 + q.q3 ^ 2 = 1) :
    -1 ≤ 2 * (q.q0 * q.q2 - q.q1 * q.q3) ∧
      2 * (q.q0 * q.q2 - q.q1 * q.q3) ≤ 1 ∧
      -(Real.pi / 2) ≤ q.pitch Real.arcsin ∧
      q.pitch Real.arcsin ≤ Real.pi / 2 ∧
      Real.sin (q.pitch Real.arcsin) = 2 * (q.q0 * q.q2 - q.q1 * q.q3) := by
  have h1 : -1 ≤ 2 * (q.q0 * q.q2 - q.q1 * q.q3) := by
    nlinarith [sq_nonneg (q.q0 + q.q2), sq_nonneg (q.q1 - q.q3)]
  have h2 : 2 * (q.q0 * q.q2 - q.q1 * q.q3) ≤ 1 := by
    nlinarith [sq_nonneg (q.q0 - q.q2), sq_nonneg (q.q1 + q.q3)]
  refine ⟨h1, h2, ?_, ?_, ?_⟩
  · exact Real.neg_pi_div_two_le_arcsin _
  · exact Real.arcsin_le_pi_div_two _
  · exact Real.sin_arcsin h1 h2

/-- The unit quaternion `(3/5, 0, 4/5, 0)`, where the argument is `24/25`. -/
theorem Quaternion.pitch_arg_mem_of_unit_witness :
    -1 ≤ 2 * ((3 / 5 : ℝ) * (4 / 5) - 0 * 0) ∧
      2 * ((3 / 5 : ℝ) * (4 / 5) - 0 * 0) ≤ 1 ∧
      -(Real.pi / 2) ≤ (⟨3 / 5, 0, 4 / 5, 0⟩ : Quaternion ℝ).pitch Real.arcsin ∧
      (⟨3 / 5, 0, 4 / 5, 0⟩ : Quaternion ℝ).pitch Real.arcsin ≤ Real.pi / 2 ∧
      Real.sin ((⟨3 / 5, 0, 4 / 5, 0⟩ : Quaternion ℝ).pitch Real.arcsin) =
        2 * ((3 / 5 : ℝ) * (4 / 5) - 0 * 0) :=
  Quaternion.pitch_arg_mem_of_unit ⟨3 / 5, 0, 4 / 5, 0⟩ (by norm_num)

end MathHpp
